import Mathlib

/-!
Verification development for the question encoder module
(src/samnet/question_encoder.py of the visual-reasoning repository).

The module is a thin composition of three framework-provided neural layers:
a token embedding table (torch.nn.Embedding with padding_idx = 0), a
bidirectional single-layer LSTM (torch.nn.LSTM, batch_first, bidirectional),
and a linear projection (torch.nn.Linear).  The wrapper logic of the module
itself (its constructor and its forward method) is embedded faithfully from
the source.  The three layers are library code that does not live in this
repository; following the design document, which treats them as black boxes
with a forward contract, they are modelled from the spec: dense tensors
become nested lists of rationals, the embedding lookup, the standard LSTM
recurrence (gate order i, f, g, o as in the framework) and the affine map
of the linear layer are spelled out, and the two smooth gate activations
(logistic sigmoid and hyperbolic tangent) are modelled by their saturating
piecewise-linear counterparts, which keeps every definition executable.
No claim below depends on the numeric shape of the activations.
-/

set_option linter.unusedVariables false

/-- Dense vector of scalars (one axis of a tensor). -/
abbrev Vec : Type := List ℚ

/-- Dense matrix as a list of rows. -/
abbrev Mat : Type := List Vec

/-- All-zero vector of the given width. -/
def zeros (n : ℕ) : Vec := List.replicate n 0

/-- Dot product of two vectors (truncating at the shorter one). -/
def dotProd (v w : Vec) : ℚ := (List.zipWith (fun a b => a * b) v w).sum

/-- Matrix-vector product, one dot product per row. -/
def matVec (m : Mat) (v : Vec) : Vec := m.map (fun row => dotProd row v)

/-- Pointwise sum of two vectors. -/
def vecAdd (v w : Vec) : Vec := List.zipWith (fun a b => a + b) v w

/-- Pointwise (Hadamard) product of two vectors. -/
def vecMul (v w : Vec) : Vec := List.zipWith (fun a b => a * b) v w

/-- Modelled from the spec: saturating stand-in for the logistic sigmoid
gate activation of the framework LSTM (monotone, range clamped to [0, 1]). -/
def sigm (x : ℚ) : ℚ := max 0 (min 1 x)

/-- Modelled from the spec: saturating stand-in for the hyperbolic tangent
activation of the framework LSTM (monotone, range clamped to [-1, 1]). -/
def tanhq (x : ℚ) : ℚ := max (-1) (min 1 x)

/-- Weights of one direction of the LSTM layer, named as in the framework:
input-to-hidden and hidden-to-hidden matrices of 4*dim stacked gate rows
(gate order i, f, g, o), plus the two bias vectors. -/
structure LSTMDir where
  w_ih : Mat
  w_hh : Mat
  b_ih : Vec
  b_hh : Vec

/-- Bidirectional single-layer LSTM: hidden width per direction plus the
weights of the forward and of the backward direction. -/
structure BiLSTM where
  hidden_size : ℕ
  fwd : LSTMDir
  bwd : LSTMDir

/-- Linear layer: weight matrix of shape (out_features, in_features) and
bias vector, as in torch.nn.Linear. -/
structure Linear where
  weight : Mat
  bias : Vec

/-- Embedding layer: one table of num_embeddings rows of width
embedding_dim, as in torch.nn.Embedding. -/
structure EmbeddingTable where
  weight : Mat

/-- The QuestionEncoder module: exactly the three sub-layers created by the
constructor in the source, with the attribute names of the source. -/
structure QuestionEncoder where
  lstm : BiLSTM
  lstm_proj : Linear
  Embedding : EmbeddingTable

/-- Modelled from the spec: one step of the standard LSTM recurrence used
by the framework layer.  The stacked gate pre-activations are
W_ih x + b_ih + W_hh h + b_hh; the four dim-wide chunks feed the input,
forget, cell and output gates; returns the new hidden and cell states. -/
def lstmCell (dim : ℕ) (W : LSTMDir) (x h c : Vec) : Vec × Vec :=
  let z := vecAdd (vecAdd (matVec W.w_ih x) W.b_ih) (vecAdd (matVec W.w_hh h) W.b_hh)
  let i := (List.take dim z).map sigm
  let f := (List.take dim (List.drop dim z)).map sigm
  let g := (List.take dim (List.drop (2 * dim) z)).map tanhq
  let o := (List.take dim (List.drop (3 * dim) z)).map sigm
  let c2 := vecAdd (vecMul f c) (vecMul i g)
  let h2 := vecMul o (c2.map tanhq)
  (h2, c2)

/-- Run one LSTM direction along a sequence from the given initial hidden
and cell states; returns the per-step hidden states and the final hidden
and cell states. -/
def lstmRun (dim : ℕ) (W : LSTMDir) : List Vec → Vec → Vec → List Vec × Vec × Vec
  | [], h, c => ([], h, c)
  | x :: xs, h, c =>
    let s := lstmCell dim W x h c
    let r := lstmRun dim W xs s.1 s.2
    (s.1 :: r.1, r.2)

/-- Bidirectional LSTM on one sequence, with explicit initial states for
both directions (models calling the framework layer with an explicit
initial-state pair).  Per step the forward and the backward hidden states
are concatenated; the second and third components are the final hidden
state of the forward and of the backward direction. -/
def biLSTMSeqFrom (L : BiLSTM) (h0f c0f h0b c0b : Vec) (xs : List Vec) :
    List Vec × Vec × Vec :=
  let fw := lstmRun L.hidden_size L.fwd xs h0f c0f
  let bw := lstmRun L.hidden_size L.bwd xs.reverse h0b c0b
  (List.zipWith (fun a b => a ++ b) fw.1 bw.1.reverse, fw.2.1, bw.2.1)

/-- Bidirectional LSTM on one sequence as invoked with no explicit initial
state: the framework then starts both directions from all-zero hidden and
cell states. -/
def biLSTMSeq (L : BiLSTM) (xs : List Vec) : List Vec × Vec × Vec :=
  let fw := lstmRun L.hidden_size L.fwd xs (zeros L.hidden_size) (zeros L.hidden_size)
  let bw := lstmRun L.hidden_size L.bwd xs.reverse (zeros L.hidden_size) (zeros L.hidden_size)
  (List.zipWith (fun a b => a ++ b) fw.1 bw.1.reverse, fw.2.1, bw.2.1)

/-- Batched bidirectional LSTM (batch_first layout), no explicit initial
state.  Returns lstm_out, of shape (batch, steps, 2*dim), and the final
hidden states h in the framework layout (num_directions = 2, batch, dim):
h[0] holds the forward finals, h[1] the backward finals. -/
def BiLSTM.forward (L : BiLSTM) (batch : List (List Vec)) :
    List (List Vec) × List (List Vec) :=
  let runs := batch.map (fun xs => biLSTMSeq L xs)
  (runs.map (fun r => r.1),
   [runs.map (fun r => r.2.1), runs.map (fun r => r.2.2)])

/-- Batched bidirectional LSTM with explicit initial states for both
directions (shared across the batch). -/
def BiLSTM.forwardFrom (L : BiLSTM) (h0f c0f h0b c0b : Vec) (batch : List (List Vec)) :
    List (List Vec) × List (List Vec) :=
  let runs := batch.map (fun xs => biLSTMSeqFrom L h0f c0f h0b c0b xs)
  (runs.map (fun r => r.1),
   [runs.map (fun r => r.2.1), runs.map (fun r => r.2.2)])

/-- Modelled from the spec: embedding lookup of one token id (row id of the
table; total function, out-of-range ids give the empty row). -/
def embedLookup (T : EmbeddingTable) (id : ℕ) : Vec := T.weight.getD id []

/-- Embedding layer applied to a batch of token-id sequences. -/
def EmbeddingTable.forward (T : EmbeddingTable) (questions : List (List ℕ)) :
    List (List Vec) :=
  questions.map (fun q => q.map (fun id => embedLookup T id))

/-- Linear layer applied to one vector: x W-transpose + b. -/
def Linear.forward (L : Linear) (v : Vec) : Vec := vecAdd (matVec L.weight v) L.bias

/-- Permutation of the two outer axes of a rectangular 3-axis tensor held
as nested lists; models h.permute(1, 0, 2) in the source. -/
def permute102 : List (List Vec) → List (List Vec)
  | [] => []
  | [r] => r.map (fun a => [a])
  | r :: rs => List.zipWith (fun a row => a :: row) r (permute102 rs)

/-- Forward pass of the QuestionEncoder, line by line from the source:
embed the token ids, run the bidirectional LSTM (no explicit initial
state), project lstm_out per token with the linear layer, and reshape the
final hidden states h via permute(1, 0, 2) followed by view(batch_size, -1)
(the flattening of the two trailing axes).  questions_len is accepted but
never read by the body, exactly as in the source. -/
def QuestionEncoder.forward (E : QuestionEncoder) (questions : List (List ℕ))
    (questions_len : List ℕ) : List (List Vec) × List Vec :=
  let embedded_questions := E.Embedding.forward questions
  let out := E.lstm.forward embedded_questions
  let lstm_out := out.1
  let h := out.2
  let contextual_word_embedding := lstm_out.map (fun s => s.map (fun v => E.lstm_proj.forward v))
  let question_encoding := (permute102 h).map List.flatten
  (contextual_word_embedding, question_encoding)

/-- Variant of the forward pass that hands the recurrent layer an explicit
initial state for each direction; used to state what the default of the
source (no explicit initial state) amounts to. -/
def QuestionEncoder.forwardFrom (E : QuestionEncoder) (h0f c0f h0b c0b : Vec)
    (questions : List (List ℕ)) (questions_len : List ℕ) :
    List (List Vec) × List Vec :=
  let embedded_questions := E.Embedding.forward questions
  let out := E.lstm.forwardFrom h0f c0f h0b c0b embedded_questions
  let lstm_out := out.1
  let h := out.2
  let contextual_word_embedding := lstm_out.map (fun s => s.map (fun v => E.lstm_proj.forward v))
  let question_encoding := (permute102 h).map List.flatten
  (contextual_word_embedding, question_encoding)

/-- State-passing translation of the forward method: the module instance is
the (reference-cell) state, each layer access reads it, and the method
returns the pair of outputs.  Used to express that forward never writes
the state. -/
def QuestionEncoder.forwardM (questions : List (List ℕ)) (questions_len : List ℕ) :
    StateM QuestionEncoder (List (List Vec) × List Vec) := do
  let E1 ← get
  let embedded_questions := E1.Embedding.forward questions
  let E2 ← get
  let out := E2.lstm.forward embedded_questions
  let E3 ← get
  let contextual_word_embedding := out.1.map (fun s => s.map (fun v => E3.lstm_proj.forward v))
  let question_encoding := (permute102 out.2).map List.flatten
  return (contextual_word_embedding, question_encoding)

/-- Fallible map over a list: the first failure aborts the whole map. -/
def traverseOption {α β : Type} (f : α → Option β) : List α → Option (List β)
  | [] => some []
  | a :: t => (f a).bind (fun b => (traverseOption f t).bind (fun bt => some (b :: bt)))

/-- Checked variant of the embedding layer: the lookup of an out-of-range
token id fails, as it does in the numeric library. -/
def EmbeddingTable.forwardChecked (T : EmbeddingTable) (questions : List (List ℕ)) :
    Option (List (List Vec)) :=
  traverseOption (fun q => traverseOption (fun id => T.weight.get? id) q) questions

/-- Checked variant of the forward pass: the only failure point of the body
on a well-shaped batch is the embedding lookup of an out-of-range id. -/
def QuestionEncoder.forwardChecked (E : QuestionEncoder) (questions : List (List ℕ))
    (questions_len : List ℕ) : Option (List (List Vec) × List Vec) :=
  match E.Embedding.forwardChecked questions with
  | none => none
  | some embedded_questions =>
    let out := E.lstm.forward embedded_questions
    let contextual_word_embedding := out.1.map (fun s => s.map (fun v => E.lstm_proj.forward v))
    let question_encoding := (permute102 out.2).map List.flatten
    some (contextual_word_embedding, question_encoding)

/-- Matrix of given shape filled from an entry function (models a freshly
initialised weight tensor; the initialisation scheme stays abstract). -/
def mkMat (r c : ℕ) (f : ℕ → ℕ → ℚ) : Mat :=
  (List.range r).map (fun i => (List.range c).map (fun j => f i j))

/-- Vector of given width filled from an entry function. -/
def mkVec (n : ℕ) (f : ℕ → ℚ) : Vec := (List.range n).map f

/-- Abstract random-initialisation scheme: one entry function per weight
tensor of the module (the Bool argument selects the LSTM direction). -/
structure InitScheme where
  embW : ℕ → ℕ → ℚ
  wih : Bool → ℕ → ℕ → ℚ
  whh : Bool → ℕ → ℕ → ℚ
  bih : Bool → ℕ → ℚ
  bhh : Bool → ℕ → ℚ
  projW : ℕ → ℕ → ℚ
  projB : ℕ → ℚ

/-- Modelled from the spec: construction of the embedding layer with
padding_idx = 0 — the table is initialised from the scheme and the padding
row is then overwritten with zeros, as the framework does at reset. -/
def EmbeddingTable.init (num_embeddings embedding_dim : ℕ) (f : ℕ → ℕ → ℚ) :
    EmbeddingTable :=
  ⟨(mkMat num_embeddings embedding_dim f).set 0 (zeros embedding_dim)⟩

/-- Constructor of the QuestionEncoder, from the source: a bidirectional
single-layer LSTM with input width embedded_dim and hidden width dim, a
linear projection from 2*dim to dim, and an embedding table of
vocabulary_size rows of width embedded_dim with padding id 0. -/
def QuestionEncoder.init (vocabulary_size embedded_dim dim : ℕ) (s : InitScheme) :
    QuestionEncoder :=
  ⟨⟨dim,
    ⟨mkMat (4 * dim) embedded_dim (s.wih false), mkMat (4 * dim) dim (s.whh false),
     mkVec (4 * dim) (s.bih false), mkVec (4 * dim) (s.bhh false)⟩,
    ⟨mkMat (4 * dim) embedded_dim (s.wih true), mkMat (4 * dim) dim (s.whh true),
     mkVec (4 * dim) (s.bih true), mkVec (4 * dim) (s.bhh true)⟩⟩,
   ⟨mkMat dim (2 * dim) s.projW, mkVec dim s.projB⟩,
   EmbeddingTable.init vocabulary_size embedded_dim s.embW⟩

/-- Modelled from the spec: the gradient that the embedding layer with
padding_idx = 0 reports for its table always has an all-zero padding row;
masking the raw gradient expresses that. -/
def maskPadRow : Mat → Mat
  | [] => []
  | g :: gs => g.map (fun _ => 0) :: gs

/-- One step of plain gradient descent on a weight matrix. -/
def sgdStep (lr : ℚ) (w g : Mat) : Mat :=
  List.zipWith (fun wr gr => List.zipWith (fun a b => a - lr * b) wr gr) w g

/-- Gradient update of the embedding table: descent along the
padding-masked gradient. -/
def embeddingGradStep (lr : ℚ) (w g : Mat) : Mat := sgdStep lr w (maskPadRow g)

/-- Per-batch-element concatenation of the final forward-direction and
final backward-direction hidden states of the recurrent layer; the shape
the spec gives for the pooled question encoding. -/
def finalHiddenConcat (E : QuestionEncoder) (questions : List (List ℕ)) : List Vec :=
  (E.Embedding.forward questions).map
    (fun xs => (biLSTMSeq E.lstm xs).2.1 ++ (biLSTMSeq E.lstm xs).2.2)

/-- Shape contract of one LSTM direction: 4*dim stacked gate rows in both
weight matrices and both biases, with the declared input width. -/
abbrev LSTMDir.WF (W : LSTMDir) (dim input_size : ℕ) : Prop :=
  W.w_ih.length = 4 * dim ∧ (∀ r ∈ W.w_ih, r.length = input_size) ∧
  W.w_hh.length = 4 * dim ∧ (∀ r ∈ W.w_hh, r.length = dim) ∧
  W.b_ih.length = 4 * dim ∧ W.b_hh.length = 4 * dim

/-- Shape contract of the whole module for given constructor arguments:
the three sub-layers have exactly the dimensions fixed at construction. -/
abbrev QuestionEncoder.WF (E : QuestionEncoder)
    (vocabulary_size embedded_dim dim : ℕ) : Prop :=
  E.lstm.hidden_size = dim ∧
  E.lstm.fwd.WF dim embedded_dim ∧
  E.lstm.bwd.WF dim embedded_dim ∧
  E.lstm_proj.weight.length = dim ∧
  (∀ r ∈ E.lstm_proj.weight, r.length = 2 * dim) ∧
  E.lstm_proj.bias.length = dim ∧
  E.Embedding.weight.length = vocabulary_size ∧
  (∀ r ∈ E.Embedding.weight, r.length = embedded_dim)

/-! ### Basic length and membership lemmas -/

theorem length_vecAdd (v w : Vec) : (vecAdd v w).length = min v.length w.length := by
  simp [vecAdd]

theorem length_vecMul (v w : Vec) : (vecMul v w).length = min v.length w.length := by
  simp [vecMul]

theorem length_matVec (m : Mat) (v : Vec) : (matVec m v).length = m.length := by
  simp [matVec]

theorem length_zeros (n : ℕ) : (zeros n).length = n := by
  simp [zeros]

theorem of_mem_zipWith {α β γ : Type} {f : α → β → γ} :
    ∀ {as : List α} {bs : List β} {c : γ}, c ∈ List.zipWith f as bs →
      ∃ a ∈ as, ∃ b ∈ bs, c = f a b := by
  intro as
  induction as with
  | nil => intro bs c hc; simp at hc
  | cons a as ih =>
    intro bs c hc
    cases bs with
    | nil => simp at hc
    | cons b bs =>
      simp only [List.zipWith_cons_cons, List.mem_cons] at hc
      rcases hc with hc | hc
      · exact ⟨a, by simp, b, by simp, hc⟩
      · obtain ⟨x, hx, y, hy, hxy⟩ := ih hc
        exact ⟨x, by simp [hx], y, by simp [hy], hxy⟩

/-! ### Monadic forward: the module state is read, never written -/

theorem forwardM_run (E : QuestionEncoder) (questions : List (List ℕ))
    (questions_len : List ℕ) :
    (QuestionEncoder.forwardM questions questions_len).run E
      = (E.forward questions questions_len, E) := rfl

/-- C8: forward has no side effects — the state-passing translation of the
forward method returns the module state unchanged, and its value is the
pure forward computation; no parameter of the module is mutated. -/
theorem forward_no_side_effects (E : QuestionEncoder) (questions : List (List ℕ))
    (questions_len : List ℕ) :
    (QuestionEncoder.forwardM questions questions_len).run E
      = (E.forward questions questions_len, E) :=
  forwardM_run E questions questions_len

/-- C5: forward is deterministic — running the forward method a second
time, from the module state the first run left behind, on the same inputs,
returns the same output as the first run. -/
theorem forward_deterministic (E : QuestionEncoder) (questions : List (List ℕ))
    (questions_len : List ℕ) :
    ((QuestionEncoder.forwardM questions questions_len).run
        (((QuestionEncoder.forwardM questions questions_len).run E).2)).1
      = ((QuestionEncoder.forwardM questions questions_len).run E).1 := by
  rw [forwardM_run, forwardM_run]

/-- C2: the questions_len argument has no effect — forward on the same
questions tensor with any two length vectors returns identical outputs
(no masking or packing of the recurrent computation is performed). -/
theorem forward_ignores_questions_len (E : QuestionEncoder)
    (questions : List (List ℕ)) (len1 len2 : List ℕ) :
    E.forward questions len1 = E.forward questions len2 := rfl

/-- C10: forward invokes the recurrent layer with no explicit initial
state, which is the same as handing every batch element all-zero initial
hidden and cell states in both directions. -/
theorem forward_zero_initial_state (E : QuestionEncoder)
    (questions : List (List ℕ)) (questions_len : List ℕ) :
    E.forward questions questions_len
      = E.forwardFrom (zeros E.lstm.hidden_size) (zeros E.lstm.hidden_size)
          (zeros E.lstm.hidden_size) (zeros E.lstm.hidden_size)
          questions questions_len := rfl

/-! ### The permute(1,0,2) + view reshape on the two final-state rows -/

theorem permute102_pair (as bs : List Vec) :
    permute102 [as, bs] = List.zipWith (fun a b => [a, b]) as bs := by
  have h1 : permute102 [bs] = bs.map (fun b => [b]) := by
    cases bs <;> rfl
  have h2 : permute102 [as, bs]
      = List.zipWith (fun a row => a :: row) as (permute102 [bs]) := by
    cases bs <;> rfl
  rw [h2, h1, List.zipWith_map_right]

theorem map_flatten_zipWith_pair (as bs : List Vec) :
    (List.zipWith (fun a b => [a, b]) as bs).map List.flatten
      = List.zipWith (fun a b => a ++ b) as bs := by
  rw [List.map_zipWith]
  simp

theorem zipWith_append_map_same {α : Type} (l : List α) (f g : α → Vec) :
    List.zipWith (fun a b => a ++ b) (l.map f) (l.map g)
      = l.map (fun x => f x ++ g x) := by
  induction l with
  | nil => rfl
  | cons a l ih => simp [ih]

/-- Shared helper: the pooled output of forward is, batch element by batch
element, the final forward-direction hidden state followed by the final
backward-direction hidden state. -/
theorem forward_snd_eq (E : QuestionEncoder) (questions : List (List ℕ))
    (questions_len : List ℕ) :
    (E.forward questions questions_len).2 = finalHiddenConcat E questions := by
  show (permute102 (E.lstm.forward (E.Embedding.forward questions)).2).map List.flatten
      = finalHiddenConcat E questions
  rw [show (E.lstm.forward (E.Embedding.forward questions)).2
      = [((E.Embedding.forward questions).map (fun xs => biLSTMSeq E.lstm xs)).map (fun r => r.2.1),
         ((E.Embedding.forward questions).map (fun xs => biLSTMSeq E.lstm xs)).map (fun r => r.2.2)]
    from rfl]
  rw [permute102_pair, map_flatten_zipWith_pair]
  rw [List.map_map, List.map_map, zipWith_append_map_same]
  rfl

/-- C3: the second output of forward is the per-batch-element concatenation
of the final-step hidden state of the forward direction with that of the
backward direction, one vector per batch element, and it does not go
through the linear projection: replacing the projection layer by any other
leaves it unchanged. -/
theorem question_encoding_spec (E : QuestionEncoder) (P : Linear)
    (questions : List (List ℕ)) (questions_len : List ℕ) :
    (E.forward questions questions_len).2 = finalHiddenConcat E questions ∧
    ((QuestionEncoder.mk E.lstm P E.Embedding).forward questions questions_len).2
      = (E.forward questions questions_len).2 := by
  constructor
  · exact forward_snd_eq E questions questions_len
  · rfl

/-! ### Shape lemmas for the recurrent layer and the projection -/

theorem lstmCell_len (dim input_size : ℕ) (W : LSTMDir) (x h c : Vec)
    (hW : W.WF dim input_size) (hc : c.length = dim) :
    (lstmCell dim W x h c).1.length = dim ∧ (lstmCell dim W x h c).2.length = dim := by
  obtain ⟨h1, -, h3, -, h5, h6⟩ := hW
  refine ⟨?_, ?_⟩ <;>
    simp [lstmCell, vecAdd, vecMul, matVec, hc, h1, h3, h5, h6] <;> omega

theorem lstmRun_len (dim input_size : ℕ) (W : LSTMDir) (hW : W.WF dim input_size) :
    ∀ (xs : List Vec) (h c : Vec), h.length = dim → c.length = dim →
      (lstmRun dim W xs h c).1.length = xs.length ∧
      (∀ v ∈ (lstmRun dim W xs h c).1, v.length = dim) ∧
      (lstmRun dim W xs h c).2.1.length = dim ∧
      (lstmRun dim W xs h c).2.2.length = dim := by
  intro xs
  induction xs with
  | nil => intro h c hh hc; simp [lstmRun, hh, hc]
  | cons x xs ih =>
    intro h c hh hc
    have hcell := lstmCell_len dim input_size W x h c hW hc
    have hrec := ih (lstmCell dim W x h c).1 (lstmCell dim W x h c).2 hcell.1 hcell.2
    have hstep : lstmRun dim W (x :: xs) h c
        = ((lstmCell dim W x h c).1 ::
            (lstmRun dim W xs (lstmCell dim W x h c).1 (lstmCell dim W x h c).2).1,
           (lstmRun dim W xs (lstmCell dim W x h c).1 (lstmCell dim W x h c).2).2) := rfl
    rw [hstep]
    refine ⟨by simp [hrec.1], ?_, hrec.2.2.1, hrec.2.2.2⟩
    intro v hv
    simp only [List.mem_cons] at hv
    rcases hv with rfl | hv
    · exact hcell.1
    · exact hrec.2.1 v hv

theorem biLSTMSeq_len (L : BiLSTM) (dim input_size : ℕ) (hdim : L.hidden_size = dim)
    (hf : L.fwd.WF dim input_size) (hb : L.bwd.WF dim input_size) (xs : List Vec) :
    (biLSTMSeq L xs).1.length = xs.length ∧
    (∀ v ∈ (biLSTMSeq L xs).1, v.length = 2 * dim) ∧
    (biLSTMSeq L xs).2.1.length = dim ∧
    (biLSTMSeq L xs).2.2.length = dim := by
  subst hdim
  have hfw := lstmRun_len L.hidden_size input_size L.fwd hf xs
    (zeros L.hidden_size) (zeros L.hidden_size) (length_zeros _) (length_zeros _)
  have hbw := lstmRun_len L.hidden_size input_size L.bwd hb xs.reverse
    (zeros L.hidden_size) (zeros L.hidden_size) (length_zeros _) (length_zeros _)
  refine ⟨?_, ?_, hfw.2.2.1, hbw.2.2.1⟩
  · show (List.zipWith _ _ _).length = xs.length
    rw [List.length_zipWith, hfw.1, List.length_reverse, hbw.1, List.length_reverse]
    omega
  · intro v hv
    obtain ⟨a, ha, b, hbm, rfl⟩ := of_mem_zipWith hv
    rw [List.length_append, hfw.2.1 a ha, hbw.2.1 b (List.mem_reverse.1 hbm)]
    omega

theorem length_linear_forward (P : Linear) (v : Vec) :
    (P.forward v).length = min P.weight.length P.bias.length := by
  simp [Linear.forward, vecAdd, matVec]

/-- C1: for every batch of token-id sequences of shape
(batch_size, max_question_length) with values below the vocabulary size,
forward returns contextual_word_embedding of shape
(batch_size, max_question_length, dim) and question_encoding of shape
(batch_size, 2*dim). -/
theorem forward_output_shapes (vocabulary_size embedded_dim dim : ℕ)
    (E : QuestionEncoder) (hE : E.WF vocabulary_size embedded_dim dim)
    (questions : List (List ℕ)) (questions_len : List ℕ) (maxLen : ℕ)
    (hrect : ∀ row ∈ questions, row.length = maxLen)
    (hids : ∀ row ∈ questions, ∀ id ∈ row, id < vocabulary_size) :
    (E.forward questions questions_len).1.length = questions.length ∧
    (∀ s ∈ (E.forward questions questions_len).1,
        s.length = maxLen ∧ ∀ v ∈ s, v.length = dim) ∧
    (E.forward questions questions_len).2.length = questions.length ∧
    (∀ v ∈ (E.forward questions questions_len).2, v.length = 2 * dim) := by
  obtain ⟨hdim, hf, hb, hpw, hpr, hpb, hvoc, hrows⟩ := hE
  have hfst : (E.forward questions questions_len).1
      = questions.map (fun row =>
          ((biLSTMSeq E.lstm (row.map (fun id => embedLookup E.Embedding id))).1).map
            (fun v => E.lstm_proj.forward v)) := by
    simp [QuestionEncoder.forward, BiLSTM.forward, EmbeddingTable.forward, List.map_map]
  have hsnd : (E.forward questions questions_len).2
      = questions.map (fun row =>
          (biLSTMSeq E.lstm (row.map (fun id => embedLookup E.Embedding id))).2.1 ++
          (biLSTMSeq E.lstm (row.map (fun id => embedLookup E.Embedding id))).2.2) := by
    rw [forward_snd_eq]
    simp [finalHiddenConcat, EmbeddingTable.forward, List.map_map]
  refine ⟨?_, ?_, ?_, ?_⟩
  · rw [hfst, List.length_map]
  · rw [hfst]
    intro s hs
    obtain ⟨row, hrow, rfl⟩ := List.mem_map.1 hs
    have hseq := biLSTMSeq_len E.lstm dim embedded_dim hdim hf hb
      (row.map (fun id => embedLookup E.Embedding id))
    constructor
    · rw [List.length_map, hseq.1, List.length_map, hrect row hrow]
    · intro v hv
      obtain ⟨w, hw, rfl⟩ := List.mem_map.1 hv
      rw [length_linear_forward, hpw, hpb, Nat.min_self]
  · rw [hsnd, List.length_map]
  · rw [hsnd]
    intro v hv
    obtain ⟨row, hrow, rfl⟩ := List.mem_map.1 hv
    have hseq := biLSTMSeq_len E.lstm dim embedded_dim hdim hf hb
      (row.map (fun id => embedLookup E.Embedding id))
    rw [List.length_append, hseq.2.2.1, hseq.2.2.2]
    omega

/-- Concrete initialisation scheme used by the witnesses below. -/
def demoScheme : InitScheme :=
  ⟨fun i j => (i : ℚ) + j, fun _ i j => 1, fun _ i j => 0,
   fun _ i => 1, fun _ i => 0, fun i j => 1, fun i => 0⟩

/-- Concrete encoder (vocabulary 3, embedding width 2, hidden width 1)
used by the witnesses below. -/
def demoE : QuestionEncoder := QuestionEncoder.init 3 2 1 demoScheme

/-- Concrete input batch of two sequences of length 2 used by the
witnesses below. -/
def demoQ : List (List ℕ) := [[1, 2], [0, 1]]

theorem forward_output_shapes_witness :
    (demoE.WF 3 2 1 ∧ (∀ row ∈ demoQ, row.length = 2) ∧
      (∀ row ∈ demoQ, ∀ id ∈ row, id < 3)) ∧
    ((demoE.forward demoQ [2, 1]).1.length = demoQ.length ∧
     (∀ s ∈ (demoE.forward demoQ [2, 1]).1, s.length = 2 ∧ ∀ v ∈ s, v.length = 1) ∧
     (demoE.forward demoQ [2, 1]).2.length = demoQ.length ∧
     (∀ v ∈ (demoE.forward demoQ [2, 1]).2, v.length = 2 * 1)) :=
  ⟨⟨by decide, by decide, by decide⟩,
   forward_output_shapes 3 2 1 demoE (by decide) demoQ [2, 1] 2 (by decide) (by decide)⟩

/-! ### Constructor shapes -/

theorem length_mkMat (r c : ℕ) (f : ℕ → ℕ → ℚ) : (mkMat r c f).length = r := by
  simp [mkMat]

theorem mem_mkMat (r c : ℕ) (f : ℕ → ℕ → ℚ) : ∀ row ∈ mkMat r c f, row.length = c := by
  intro row hrow
  simp only [mkMat, List.mem_map] at hrow
  obtain ⟨i, -, rfl⟩ := hrow
  simp

theorem length_mkVec (n : ℕ) (f : ℕ → ℚ) : (mkVec n f).length = n := by
  simp [mkVec]

/-- C7: for positive constructor arguments, construction creates exactly
the three sub-layers with their fixed dimensions — an embedding table of
vocabulary_size rows of width embedded_dim whose padding row (id 0) is
zeroed, a bidirectional single-layer recurrent layer with input width
embedded_dim and hidden width dim per direction (4*dim stacked gate rows
per weight matrix), and a linear projection from 2*dim to dim. -/
theorem init_creates_three_fixed_layers (vocabulary_size embedded_dim dim : ℕ)
    (s : InitScheme) (hv : 0 < vocabulary_size) (he : 0 < embedded_dim)
    (hd : 0 < dim) :
    (QuestionEncoder.init vocabulary_size embedded_dim dim s).WF
      vocabulary_size embedded_dim dim ∧
    (QuestionEncoder.init vocabulary_size embedded_dim dim s).Embedding.weight.getD 0 []
      = zeros embedded_dim := by
  refine ⟨⟨rfl,
    ⟨length_mkMat _ _ _, mem_mkMat _ _ _, length_mkMat _ _ _, mem_mkMat _ _ _,
     length_mkVec _ _, length_mkVec _ _⟩,
    ⟨length_mkMat _ _ _, mem_mkMat _ _ _, length_mkMat _ _ _, mem_mkMat _ _ _,
     length_mkVec _ _, length_mkVec _ _⟩,
    length_mkMat _ _ _, mem_mkMat _ _ _, length_mkVec _ _, ?_, ?_⟩, ?_⟩
  · show ((mkMat vocabulary_size embedded_dim s.embW).set 0 (zeros embedded_dim)).length
      = vocabulary_size
    rw [List.length_set, length_mkMat]
  · intro r hr
    rcases List.mem_or_eq_of_mem_set hr with hmem | rfl
    · exact mem_mkMat _ _ _ r hmem
    · exact length_zeros _
  · show ((mkMat vocabulary_size embedded_dim s.embW).set 0 (zeros embedded_dim)).getD 0 []
      = zeros embedded_dim
    have hne : mkMat vocabulary_size embedded_dim s.embW ≠ [] := by
      rw [← List.length_pos, length_mkMat]; exact hv
    obtain ⟨b, t, hbt⟩ := List.exists_cons_of_ne_nil hne
    rw [hbt]
    rfl

theorem init_creates_three_fixed_layers_witness :
    (0 < 3 ∧ 0 < 2 ∧ 0 < 1) ∧
    ((QuestionEncoder.init 3 2 1 demoScheme).WF 3 2 1 ∧
     (QuestionEncoder.init 3 2 1 demoScheme).Embedding.weight.getD 0 [] = zeros 2) :=
  ⟨⟨by decide, by decide, by decide⟩,
   init_creates_three_fixed_layers 3 2 1 demoScheme (by decide) (by decide) (by decide)⟩

/-! ### The padding row of the embedding table -/

theorem zipWith_descent_zero (lr : ℚ) (g0 : Vec) :
    List.zipWith (fun a b => a - lr * b) (zeros g0.length) (g0.map (fun _ => (0:ℚ)))
      = zeros g0.length := by
  induction g0 with
  | nil => rfl
  | cons a t ih =>
    simp only [List.length_cons, zeros, List.replicate_succ, List.map_cons,
      List.zipWith_cons_cons] at *
    rw [ih]
    norm_num

/-- C4: row 0 of the embedding table (the padding row) is the zero vector
at construction, and after a gradient update along the padding-masked
gradient the layer reports it is still the zero vector: the padding row
never receives gradient updates. -/
theorem padding_row_stays_zero (vocabulary_size embedded_dim dim : ℕ)
    (s : InitScheme) (hv : 0 < vocabulary_size) (g : Mat) (lr : ℚ)
    (hg : g.length = vocabulary_size) (hgrows : ∀ r ∈ g, r.length = embedded_dim) :
    (QuestionEncoder.init vocabulary_size embedded_dim dim s).Embedding.weight.getD 0 []
      = zeros embedded_dim ∧
    (embeddingGradStep lr
        (QuestionEncoder.init vocabulary_size embedded_dim dim s).Embedding.weight
        g).getD 0 [] = zeros embedded_dim := by
  have hne : mkMat vocabulary_size embedded_dim s.embW ≠ [] := by
    rw [← List.length_pos, length_mkMat]; exact hv
  obtain ⟨b, t, hbt⟩ := List.exists_cons_of_ne_nil hne
  have hW : (QuestionEncoder.init vocabulary_size embedded_dim dim s).Embedding.weight
      = zeros embedded_dim :: t := by
    show (mkMat vocabulary_size embedded_dim s.embW).set 0 (zeros embedded_dim)
        = zeros embedded_dim :: t
    rw [hbt]
    rfl
  have hgne : g ≠ [] := by
    rw [← List.length_pos, hg]; exact hv
  obtain ⟨g0, gt, hg0t⟩ := List.exists_cons_of_ne_nil hgne
  have hg0 : g0.length = embedded_dim := hgrows g0 (by rw [hg0t]; simp)
  constructor
  · rw [hW]; rfl
  · rw [hW, hg0t]
    show (List.zipWith _ (zeros embedded_dim :: t) (g0.map (fun _ => (0:ℚ)) :: gt)).getD 0 []
      = zeros embedded_dim
    rw [List.zipWith_cons_cons]
    show List.zipWith (fun a b => a - lr * b) (zeros embedded_dim) (g0.map (fun _ => (0:ℚ)))
      = zeros embedded_dim
    rw [← hg0]
    exact zipWith_descent_zero lr g0

/-- Concrete gradient matrix used by the witness below. -/
def demoGrad : Mat := [[1, 2], [3, 4], [5, 6]]

theorem padding_row_stays_zero_witness :
    (0 < 3 ∧ demoGrad.length = 3 ∧ (∀ r ∈ demoGrad, r.length = 2)) ∧
    ((QuestionEncoder.init 3 2 1 demoScheme).Embedding.weight.getD 0 [] = zeros 2 ∧
     (embeddingGradStep 1 (QuestionEncoder.init 3 2 1 demoScheme).Embedding.weight
        demoGrad).getD 0 [] = zeros 2) :=
  ⟨⟨by decide, by decide, by decide⟩,
   padding_row_stays_zero 3 2 1 demoScheme (by decide) demoGrad 1 (by decide) (by decide)⟩

/-! ### Well-formed input never makes the forward pass fail -/

theorem traverse_lookup_eq (w : Mat) : ∀ (q : List ℕ), (∀ id ∈ q, id < w.length) →
    traverseOption (fun id => w.get? id) q = some (q.map (fun id => w.getD id [])) := by
  intro q
  induction q with
  | nil => intro h; rfl
  | cons a t ih =>
    intro h
    have ha : a < w.length := h a (by simp)
    have hsome : w.get? a = some (w.getD a []) := by
      rw [List.get?_eq_getElem?, List.getD_eq_getElem?_getD, List.getElem?_eq_getElem ha]
      rfl
    have ht := ih (fun id hid => h id (by simp [hid]))
    show (w.get? a).bind _ = _
    rw [hsome, ht]
    rfl

theorem embedding_checked_eq (T : EmbeddingTable) : ∀ (questions : List (List ℕ)),
    (∀ row ∈ questions, ∀ id ∈ row, id < T.weight.length) →
    T.forwardChecked questions = some (T.forward questions) := by
  intro qs
  induction qs with
  | nil => intro h; rfl
  | cons q t ih =>
    intro h
    have h1 := traverse_lookup_eq T.weight q (fun id hid => h q (by simp) id hid)
    have h2ans := ih (fun row hrow id hid => h row (by simp [hrow]) id hid)
    have h2 : traverseOption (fun r => traverseOption (fun id => T.weight.get? id) r) t
        = some (T.forward t) := h2ans
    show (traverseOption (fun id => T.weight.get? id) q).bind _ = _
    rw [h1, h2]
    rfl

/-- C9: for every batch of in-range token ids the checked forward pass (in
which the only library failure point on a well-shaped batch, the embedding
lookup, may fail) succeeds and returns exactly the value of the total
forward computation; the module body adds no validation of its own. -/
theorem forward_raises_no_exception (E : QuestionEncoder)
    (questions : List (List ℕ)) (questions_len : List ℕ)
    (hb : ∀ row ∈ questions, ∀ id ∈ row, id < E.Embedding.weight.length) :
    E.forwardChecked questions questions_len
      = some (E.forward questions questions_len) := by
  unfold QuestionEncoder.forwardChecked
  rw [embedding_checked_eq E.Embedding questions hb]
  rfl

theorem forward_raises_no_exception_witness :
    (∀ row ∈ demoQ, ∀ id ∈ row, id < demoE.Embedding.weight.length) ∧
    demoE.forwardChecked demoQ [2, 1] = some (demoE.forward demoQ [2, 1]) :=
  ⟨by decide, forward_raises_no_exception demoE demoQ [2, 1] (by decide)⟩

/-! ### The padded tail is not masked out of the pooled encoding -/

/-- Concrete encoder (vocabulary 2, embedding width 1, hidden width 1)
whose output gate reads the input token; used to exhibit that tokens
sitting beyond the declared length reach the pooled encoding. -/
def tailE : QuestionEncoder :=
  ⟨⟨1, ⟨[[0], [0], [0], [1]], [[0], [0], [0], [0]], [1, 1, 1, 0], [0, 0, 0, 0]⟩,
       ⟨[[0], [0], [0], [0]], [[0], [0], [0], [0]], [0, 0, 0, 0], [0, 0, 0, 0]⟩⟩,
   ⟨[[0, 0]], [0]⟩,
   ⟨[[0], [1]]⟩⟩

/-- C6: for a concrete batch with declared true length 1, changing only the
padded tail (the token at position 1, beyond the declared length) while
keeping the prefix and the declared lengths fixed changes the returned
question_encoding — the padded tail is not masked out of the pooled
encoding. -/
theorem padded_tail_changes_encoding :
    ([[1, 0]] : List (List ℕ)).map (fun q => q.take 1)
      = ([[1, 1]] : List (List ℕ)).map (fun q => q.take 1) ∧
    (tailE.forward [[1, 0]] [1]).2 ≠ (tailE.forward [[1, 1]] [1]).2 := by
  constructor
  · rfl
  · have h1 : (tailE.forward [[1, 0]] [1]).2 = [[0, 0]] := by
      norm_num [tailE, QuestionEncoder.forward, BiLSTM.forward, EmbeddingTable.forward,
        embedLookup, biLSTMSeq, lstmRun, lstmCell, vecAdd, vecMul, matVec, dotProd,
        sigm, tanhq, zeros, permute102, Linear.forward]
    have h2 : (tailE.forward [[1, 1]] [1]).2 = [[1, 0]] := by
      norm_num [tailE, QuestionEncoder.forward, BiLSTM.forward, EmbeddingTable.forward,
        embedLookup, biLSTMSeq, lstmRun, lstmCell, vecAdd, vecMul, matVec, dotProd,
        sigm, tanhq, zeros, permute102, Linear.forward]
    rw [h1, h2]
    norm_num
